import Mathlib

/-!
Verification of the LD35Game audio/shape core (`src/main.rs`, `src/math.rs`).

Rust `f32` arithmetic is modelled by exact real arithmetic; the Rust `%`
operator on floats (truncated remainder, sign of the dividend) is modelled
by `fmodR`.
-/

namespace LD35

/-- Truncation toward zero, as Rust's `f32::trunc`. -/
noncomputable def truncR (x : ℝ) : ℝ := if 0 ≤ x then (⌊x⌋ : ℝ) else (⌈x⌉ : ℝ)

/-- Rust's `%` on floats: `x % y = x - (x / y).trunc() * y`. -/
noncomputable def fmodR (x y : ℝ) : ℝ := x - y * truncR (x / y)

/-- `fn sine_wave(x: f32) -> f32 { (x * PI * 2.0).sin() }` -/
noncomputable def sine_wave (x : ℝ) : ℝ := Real.sin (x * Real.pi * 2)

/-- `fn square_wave(x: f32) -> f32`: `mod_x = (x * 2.0) % 2.0; if mod_x > 1.0 { -1.0 } else { 1.0 }`. -/
noncomputable def square_wave (x : ℝ) : ℝ :=
  if fmodR (x * 2) 2 > 1 then -1 else 1

/-- `fn sawtooth_wave(x: f32) -> f32 { (x % 1.0) * 2.0 - 1.0 }` -/
noncomputable def sawtooth_wave (x : ℝ) : ℝ := fmodR x 1 * 2 - 1

/-- `fn envelope(x: f32, factor: f32) -> f32`:
`mod_x = x % 1.0; (factor * mod_x * (PI / (1.0 + (factor - 1.0) * mod_x))).sin()`. -/
noncomputable def envelope (x factor : ℝ) : ℝ :=
  Real.sin (factor * fmodR x 1 * (Real.pi / (1 + (factor - 1) * fmodR x 1)))

end LD35

namespace LD35

/-- `enum MixerChannel { Sine(f32, f32), Square(f32, f32), Sawtooth(f32, f32), Beep(f32) }` -/
inductive MixerChannel where
  | Sine : ℝ → ℝ → MixerChannel
  | Square : ℝ → ℝ → MixerChannel
  | Sawtooth : ℝ → ℝ → MixerChannel
  | Beep : ℝ → MixerChannel

/-- `struct MixerChannelParams { phase_inc: f32, phase: f32, volume: f32 }` -/
@[ext]
structure MixerChannelParams where
  phase_inc : ℝ
  phase : ℝ
  volume : ℝ

/-- `MixerChannelParams::default()` -/
def MixerChannelParams.default : MixerChannelParams :=
  { phase_inc := 0, phase := 0, volume := 0 }

/-- `struct MixerCallback` (the `rx` queue end is externalized: the drained
commands are passed to the callback as a list). -/
structure MixerCallback where
  freq : ℝ
  channels : Fin 4 → MixerChannelParams
  channel_targets : Fin 4 → MixerChannelParams
  time : ℝ

/-- One drained command applied to the targets (the `Ok(channel)` arm of the
drain loop in `MixerCallback::callback`). -/
noncomputable def applyCommand (s : MixerCallback) (c : MixerChannel) : MixerCallback :=
  match c with
  | .Sine f v =>
      let t := { s.channel_targets 0 with phase_inc := f / s.freq, volume := v }
      { s with channel_targets := Function.update s.channel_targets 0 t }
  | .Square f v =>
      let t := { s.channel_targets 1 with phase_inc := f / s.freq, volume := v }
      { s with channel_targets := Function.update s.channel_targets 1 t }
  | .Sawtooth f v =>
      let t := { s.channel_targets 2 with volume := v, phase_inc := f / s.freq }
      { s with channel_targets := Function.update s.channel_targets 2 t }
  | .Beep f =>
      let t : MixerChannelParams := { volume := 8, phase_inc := f / s.freq, phase := 0 }
      { s with channel_targets := Function.update s.channel_targets 3 t }

/-- The `'running` drain loop of `MixerCallback::callback`, draining the
pending commands in arrival order. -/
noncomputable def mixDrain (s : MixerCallback) (cmds : List MixerChannel) : MixerCallback :=
  cmds.foldl applyCommand s

/-- The `match idx` sample expression of the synthesis loop; slot 3 also
decays its own target volume (`self.channel_targets[idx].volume *= 0.995`). -/
noncomputable def mixSample (s : MixerCallback) (idx : Fin 4) (phase : ℝ) : MixerCallback × ℝ :=
  if idx.val = 0 then (s, sine_wave phase * envelope s.time 8)
  else if idx.val = 1 then (s, square_wave phase * envelope s.time 8)
  else if idx.val = 2 then (s, sawtooth_wave phase * envelope s.time 8)
  else if idx.val = 3 then
    let t := { s.channel_targets idx with volume := (s.channel_targets idx).volume * 0.995 }
    ({ s with channel_targets := Function.update s.channel_targets idx t }, sine_wave phase)
  else (s, 0)

/-- The body of `for idx in 0..self.channels.len()` inside the synthesis
loop, threading the callback state and the `out_val` accumulator. -/
noncomputable def channelStep (sa : MixerCallback × ℝ) (idx : Fin 4) : MixerCallback × ℝ :=
  let s := sa.1
  let ch := s.channels idx
  let phase' := fmodR (ch.phase + ch.phase_inc) 1
  let s1 : MixerCallback :=
    { s with channels := Function.update s.channels idx ({ ch with phase := phase' }) }
  let p := mixSample s1 idx phase'
  let s2 := p.1
  let acc := sa.2 + (s2.channels idx).volume * p.2
  let tgt := s2.channel_targets idx
  let chNew : MixerChannelParams :=
    { phase_inc := ch.phase_inc * 0.999 + tgt.phase_inc * 0.001,
      phase := phase',
      volume := ch.volume * 0.999 + tgt.volume * 0.001 }
  ({ s2 with channels := Function.update s2.channels idx chNew }, acc)

/-- One iteration of `for x in out.iter_mut()`: produce one output frame and
advance the running clock. -/
noncomputable def mixFrame (s : MixerCallback) : MixerCallback × ℝ :=
  let p := (List.finRange 4).foldl channelStep (s, 0)
  ({ p.1 with time := fmodR (p.1.time + 1 / p.1.freq) 8 }, p.2 / 4)

/-- State transition of one output frame. -/
noncomputable def mixNext (s : MixerCallback) : MixerCallback := (mixFrame s).1

/-- `n` consecutive output frames: final state and the written samples. -/
noncomputable def mixFrames : MixerCallback → ℕ → MixerCallback × List ℝ
  | s, 0 => (s, [])
  | s, n + 1 =>
      let p := mixFrame s
      let q := mixFrames p.1 n
      (q.1, p.2 :: q.2)

/-- `MixerCallback::callback`: drain the queue, then synthesize the frames of
the output buffer. -/
noncomputable def mixCallback (s : MixerCallback) (cmds : List MixerChannel) (n : ℕ) :
    MixerCallback × List ℝ :=
  mixFrames (mixDrain s cmds) n

/-- The mixer state reached after draining and `i` complete frames. -/
noncomputable def mixAfter (s : MixerCallback) (cmds : List MixerChannel) (i : ℕ) : MixerCallback :=
  mixNext^[i] (mixDrain s cmds)

/-- The waveform value of slot `idx` at phase `p` when the running clock
reads `t` (spec side: the slot's waveform function, envelope-modulated on
the three tone slots). -/
noncomputable def slotWave (t : ℝ) (idx : Fin 4) (p : ℝ) : ℝ :=
  if idx.val = 0 then sine_wave p * envelope t 8
  else if idx.val = 1 then square_wave p * envelope t 8
  else if idx.val = 2 then sawtooth_wave p * envelope t 8
  else if idx.val = 3 then sine_wave p
  else 0

/-- Spec side: the frame's output value, `accumulator / channel_count` with
the accumulator summing `volume * sample` at the advanced phase of each slot. -/
noncomputable def specFrameOut (s : MixerCallback) : ℝ :=
  (∑ idx : Fin 4,
    (s.channels idx).volume *
      slotWave s.time idx (fmodR ((s.channels idx).phase + (s.channels idx).phase_inc) 1)) / 4

/-- The channel-target bank after the sample `match` of slot `idx` ran
(slot 3 decays its own target volume, the other slots leave targets alone). -/
noncomputable def mixTgts (s : MixerCallback) (idx : Fin 4) : Fin 4 → MixerChannelParams :=
  if idx.val = 3 then
    Function.update s.channel_targets idx
      { s.channel_targets idx with volume := (s.channel_targets idx).volume * 0.995 }
  else s.channel_targets

/-- The target the smoothing of slot `idx` blends toward within one frame. -/
noncomputable def mixTgt (s : MixerCallback) (idx : Fin 4) : MixerChannelParams :=
  mixTgts s idx idx

/-- `struct Vec2d { x: f32, y: f32 }` from `math.rs`. -/
@[ext]
structure Vec2d where
  x : ℝ
  y : ℝ

/-- `impl Add<Vec2d> for Vec2d`. -/
def Vec2d.add (a b : Vec2d) : Vec2d := ⟨a.x + b.x, a.y + b.y⟩

/-- `impl Mul<f32> for Vec2d`. -/
def Vec2d.scale (a : Vec2d) (s : ℝ) : Vec2d := ⟨a.x * s, a.y * s⟩

/-- `const SIZE: f32 = 96.0`. -/
def SIZE : ℝ := 96

/-- `struct Shape` (channel-driven variant, the one present in `main.rs`). -/
structure Shape where
  position : Vec2d
  points : List Vec2d
  set_channels : Fin 3 → MixerChannel
  channels : Fin 3 → MixerChannelParams
  channel_targets : Fin 3 → MixerChannelParams
  is_selected : Bool

/-- The `match idx` expression inside `Shape::sample_channels`: the slot's
waveform sampled at `scale_rot * phase_inc`, weighted by its volume. -/
noncomputable def shapeChanSample (ch : Fin 3 → MixerChannelParams) (i : Fin 3) (x : ℝ) : ℝ :=
  if i.val = 0 then sine_wave (x * (ch i).phase_inc) * (ch i).volume
  else if i.val = 1 then square_wave (x * (ch i).phase_inc) * (ch i).volume
  else if i.val = 2 then sawtooth_wave (x * (ch i).phase_inc) * (ch i).volume
  else 0

/-- `Shape::sample_channels`. -/
noncomputable def Shape.sample_channels (s : Shape) (x t : ℝ) : Vec2d :=
  let rot := (x + t * 0.125) * Real.pi * 2
  let offset : Vec2d := ⟨Real.cos rot, Real.sin rot⟩
  let out_sample := (List.finRange 3).foldl (fun acc i => acc + shapeChanSample s.channels i x) 0
  let scale := SIZE * (out_sample / 3 + 1)
  Vec2d.scale offset scale

/-- `Shape::update`: smooth the shape's own channels 5% toward their targets,
then recompute every vertex (`tick` is accepted but unused by the source). -/
noncomputable def Shape.update (s : Shape) (tick time : ℝ) : Shape :=
  let chans : Fin 3 → MixerChannelParams := fun i =>
    { phase_inc := (s.channels i).phase_inc * 0.95 + (s.channel_targets i).phase_inc * 0.05,
      phase := (s.channels i).phase,
      volume := (s.channels i).volume * 0.95 + (s.channel_targets i).volume * 0.05 }
  let s1 : Shape := { s with channels := chans }
  let num_points := s1.points.length
  let mul_val : ℝ := 1 / (num_points : ℝ)
  { s1 with points :=
      (List.range num_points).map fun (idx : ℕ) => s1.sample_channels ((idx : ℝ) * mul_val) time }

/-- `Shape::set_target` (`divisor = 440.0 / 8.0`). -/
noncomputable def Shape.set_target (s : Shape) (in_channels : Fin 3 → MixerChannel) : Shape :=
  let divisor : ℝ := 440 / 8
  let targets : Fin 3 → MixerChannelParams := fun i =>
    let pv : ℝ × ℝ :=
      match in_channels i with
      | .Sine f v => (f / divisor, v)
      | .Square f v => (f / divisor, v)
      | .Sawtooth f v => (f / divisor, v)
      | _ => (0, 0)
    { s.channel_targets i with phase_inc := pv.1, volume := pv.2 }
  { s with channel_targets := targets, set_channels := in_channels }

/-- `Shape::new`: zeroed channels and targets, a vertex buffer of
`num_points` zero vectors, one `update(0,0)`, then `set_target`. -/
noncomputable def Shape.new (in_position : Vec2d) (num_points : ℕ)
    (in_channels : Fin 3 → MixerChannel) : Shape :=
  let s0 : Shape :=
    { position := in_position,
      points := List.replicate num_points ⟨0, 0⟩,
      channels := fun _ => MixerChannelParams.default,
      channel_targets := fun _ => MixerChannelParams.default,
      set_channels := in_channels,
      is_selected := false }
  (s0.update 0 0).set_target in_channels

/-- `Shape::reset`. -/
noncomputable def Shape.reset (s : Shape) (in_shape : Shape) : Shape :=
  let s1 : Shape :=
    { s with position := in_shape.position,
             channel_targets := in_shape.channel_targets,
             set_channels := in_shape.set_channels,
             is_selected := false }
  s1.update 0 0

/-- Spec side: `unit_vector(a) = (cos a, sin a)`. -/
noncomputable def unit_vector (a : ℝ) : Vec2d := ⟨Real.cos a, Real.sin a⟩

/-- Spec side (amended claim): the radius obtained by summing the
volume-weighted waveform outputs of the shape's channels, sampled at
`u * phase_inc`, mapped through `SIZE * (sum / 3 + 1)`. -/
noncomputable def specRadius (ch : Fin 3 → MixerChannelParams) (u : ℝ) : ℝ :=
  SIZE * ((∑ i : Fin 3, shapeChanSample ch i u) / 3 + 1)

/-- Claim side (claim C3 as stated): each slot's waveform function sampled
at phase `u` itself, volume-weighted. -/
noncomputable def claimChanSample (ch : Fin 3 → MixerChannelParams) (i : Fin 3) (u : ℝ) : ℝ :=
  if i.val = 0 then sine_wave u * (ch i).volume
  else if i.val = 1 then square_wave u * (ch i).volume
  else if i.val = 2 then sawtooth_wave u * (ch i).volume
  else 0

/-- Claim side (claim C3 as stated): radius from waveforms sampled at `u`. -/
noncomputable def claimRadius (ch : Fin 3 → MixerChannelParams) (u : ℝ) : ℝ :=
  SIZE * ((∑ i : Fin 3, claimChanSample ch i u) / 3 + 1)

end LD35

namespace LD35

/-- Exponential smoothing step of the audio callback:
`v = v * 0.999 + target * 0.001`. -/
def blend_audio (v target : ℝ) : ℝ := v * 0.999 + target * 0.001

/-- Exponential smoothing step of `Shape::update`:
`v = v * 0.95 + target * 0.05`. -/
def blend_shape (v target : ℝ) : ℝ := v * 0.95 + target * 0.05

/-- `n` repeated applications of a smoothing step toward a fixed target. -/
def smoothIter (f : ℝ → ℝ → ℝ) (target v : ℝ) : ℕ → ℝ
  | 0 => v
  | n + 1 => f (smoothIter f target v n) target

end LD35

namespace LD35

/-- Modelled from the spec: the function-driven Shape variant is absent from
`src/` (only the unused `type PointFunc` alias remains), so it is modelled
from the spec's words: up to two parametric functions `f(u, t) -> point`,
a morph scalar, vertices `lerp(f_current(u,t), f_next(u,t), morph)`. -/
structure FuncShape where
  current : ℚ → ℚ → ℚ × ℚ
  next : Option (ℚ → ℚ → ℚ × ℚ)
  morph : ℚ
  points : List (ℚ × ℚ)

/-- Modelled from the spec: linear interpolation between two points. -/
def lerpQ (a b : ℚ × ℚ) (t : ℚ) : ℚ × ℚ :=
  (a.1 + (b.1 - a.1) * t, a.2 + (b.2 - a.2) * t)

/-- Modelled from the spec: `set_next(function)` starts a morph. -/
def FuncShape.set_next (s : FuncShape) (f : ℚ → ℚ → ℚ × ℚ) : FuncShape :=
  { s with next := some f }

/-- Modelled from the spec: `update(tick, time)` — once a next-function is
set, morph increases by `tick`; when morph > 1 the next function becomes
current, morph resets to 0 and the stale slot is cleared; all vertices are
recomputed at `u = idx / vertex_count`. -/
def FuncShape.update (s : FuncShape) (tick time : ℚ) : FuncShape :=
  let n := s.points.length
  match s.next with
  | none =>
      { s with points := (List.range n).map fun (idx : ℕ) => s.current ((idx : ℚ) / (n : ℚ)) time }
  | some g =>
      let m := s.morph + tick
      if m > 1 then
        { s with current := g, next := none, morph := 0,
                 points := (List.range n).map fun (idx : ℕ) => g ((idx : ℚ) / (n : ℚ)) time }
      else
        { s with morph := m,
                 points := (List.range n).map fun (idx : ℕ) =>
                   lerpQ (s.current ((idx : ℚ) / (n : ℚ)) time) (g ((idx : ℚ) / (n : ℚ)) time) m }

end LD35

namespace LD35

/-- The vertex `Shape::draw` emits for index `i`:
`self.points[i] + self.position`. -/
noncomputable def Shape.vertexAt (s : Shape) (i : ℕ) : Option Vec2d :=
  (s.points.get? i).map fun p => Vec2d.add p s.position

/-- One morph step of the claim C9 scenario: `update(0.25, time)`. -/
def morphStep (tm : ℚ) (s : FuncShape) : FuncShape := s.update (1/4) tm

/-- A concrete position for witnesses. -/
noncomputable def cpos : Vec2d := ⟨0, 0⟩

/-- A concrete channel triple for witnesses. -/
noncomputable def cchans : Fin 3 → MixerChannel := fun _ => MixerChannel.Sine 440 (1/2)

/-- Concrete channel params: only the square slot live, `phase_inc = 3`,
`volume = 1`. -/
noncomputable def cch3 : Fin 3 → MixerChannelParams := fun i =>
  if i.val = 1 then { phase_inc := 3, phase := 0, volume := 1 }
  else MixerChannelParams.default

/-- A concrete channel-driven shape whose targets equal its live channels,
with four vertices. -/
noncomputable def cshape3 : Shape :=
  { position := ⟨0, 0⟩,
    points := List.replicate 4 ⟨0, 0⟩,
    set_channels := fun _ => MixerChannel.Sine 0 0,
    channels := cch3,
    channel_targets := cch3,
    is_selected := false }

/-- A concrete parametric point function. -/
def cfun0 : ℚ → ℚ → ℚ × ℚ := fun u t => (u, t)

/-- A second, distinct concrete parametric point function. -/
def cfun1 : ℚ → ℚ → ℚ × ℚ := fun u t => (u + 1, t + 1)

/-- A concrete function-driven shape, settled on `cfun0`. -/
def cfshape : FuncShape :=
  { current := cfun0, next := none, morph := 0, points := List.replicate 4 (0, 0) }

/-- A concrete mixer state: unit sample rate, all channels zeroed. -/
noncomputable def cmix : MixerCallback :=
  { freq := 1,
    channels := fun _ => MixerChannelParams.default,
    channel_targets := fun _ => MixerChannelParams.default,
    time := 0 }

end LD35

namespace LD35

theorem truncR_of_nonneg {x : ℝ} (h : 0 ≤ x) : truncR x = (⌊x⌋ : ℝ) := by
  simp [truncR, h]

theorem fmodR_one_of_nonneg {x : ℝ} (h : 0 ≤ x) : fmodR x 1 = Int.fract x := by
  rw [fmodR, div_one, truncR_of_nonneg h, one_mul, Int.self_sub_floor]

end LD35

namespace LD35

/-- Claim C7: for every `x` and `factor`, `envelope(x, factor)` equals the
exact closed form `sin(factor * mod(x,1) * π / (1 + (factor-1) * mod(x,1)))`. -/
theorem envelope_c7 (x factor : ℝ) :
    envelope x factor
      = Real.sin (factor * fmodR x 1 * Real.pi / (1 + (factor - 1) * fmodR x 1)) := by
  rw [envelope, mul_div_assoc]

/-- Claim C4, counterexample: at `x = 1/4` the value `m = (2x) mod 2 = 1/2`
is below 1, yet `square_wave` returns `1`, not the `-1` the claim states. -/
theorem square_wave_claim_cex :
    fmodR ((1/4 : ℝ) * 2) 2 < 1 ∧ square_wave (1/4 : ℝ) ≠ -1 := by
  have h : fmodR ((1/4 : ℝ) * 2) 2 = 1/2 := by
    rw [fmodR, truncR]
    norm_num
  have hs : square_wave (1/4 : ℝ) = 1 := by
    unfold square_wave
    rw [h]
    norm_num
  refine ⟨by rw [h]; norm_num, by rw [hs]; norm_num⟩

/-- Claim C4, amended: `square_wave` computes `m = (2x) mod 2` and returns
the high value `1` when `m ≤ 1` and the low value `-1` when `m > 1`. -/
theorem square_wave_c4 (x : ℝ) :
    (1 < fmodR (x * 2) 2 → square_wave x = -1) ∧
    (fmodR (x * 2) 2 ≤ 1 → square_wave x = 1) := by
  unfold square_wave
  constructor
  · intro h
    rw [if_pos h]
  · intro h
    rw [if_neg (not_lt.mpr h)]

/-- Witness for `square_wave_c4` at `x = 3/4`, where `m = 3/2 > 1`. -/
theorem square_wave_c4_witness :
    1 < fmodR ((3/4 : ℝ) * 2) 2 ∧ square_wave (3/4 : ℝ) = -1 := by
  have h : fmodR ((3/4 : ℝ) * 2) 2 = 3/2 := by
    rw [fmodR, truncR]
    norm_num
  have h1 : 1 < fmodR ((3/4 : ℝ) * 2) 2 := by
    rw [h]
    norm_num
  exact ⟨h1, (square_wave_c4 (3/4)).1 h1⟩

/-- Claim C5, counterexample: at the negative input `x = -1/2` the Rust `%`
is a truncated remainder, so `sawtooth_wave (-1/2) = -2`, which leaves the
codomain `[-1, 1)` and breaks period-1 periodicity. -/
theorem sawtooth_claim_cex :
    sawtooth_wave (-(1/2) : ℝ) = -2 ∧ sawtooth_wave (-(1/2) : ℝ) < -1 ∧
    sawtooth_wave ((-(1/2) : ℝ) + 1) ≠ sawtooth_wave (-(1/2) : ℝ) := by
  have hm : fmodR (-(1/2) : ℝ) 1 = -(1/2) := by
    rw [fmodR, truncR]
    norm_num
  have hv : sawtooth_wave (-(1/2) : ℝ) = -2 := by
    unfold sawtooth_wave
    rw [hm]
    norm_num
  have he : ((-(1/2) : ℝ) + 1) = 1/2 := by norm_num
  have hp : fmodR ((1/2) : ℝ) 1 = 1/2 := by
    rw [fmodR, truncR]
    norm_num
  have hv2 : sawtooth_wave ((-(1/2) : ℝ) + 1) = 0 := by
    rw [he]
    unfold sawtooth_wave
    rw [hp]
    norm_num
  refine ⟨hv, by rw [hv]; norm_num, by rw [hv2, hv]; norm_num⟩

/-- Claim C5, amended: `sawtooth_wave` is total; on non-negative inputs it is
periodic with period 1 and takes values in `[-1, 1)`; the boundary points
`x = 0` and `x = 1` map to the same value. -/
theorem sawtooth_c5 :
    (∀ x : ℝ, 0 ≤ x → sawtooth_wave (x + 1) = sawtooth_wave x) ∧
    (∀ x : ℝ, 0 ≤ x → -1 ≤ sawtooth_wave x ∧ sawtooth_wave x < 1) ∧
    sawtooth_wave 0 = sawtooth_wave 1 := by
  refine ⟨?_, ?_, ?_⟩
  · intro x hx
    unfold sawtooth_wave
    rw [fmodR_one_of_nonneg (by linarith), fmodR_one_of_nonneg hx, Int.fract_add_one]
  · intro x hx
    unfold sawtooth_wave
    rw [fmodR_one_of_nonneg hx]
    have h1 := Int.fract_nonneg x
    have h2 := Int.fract_lt_one x
    constructor <;> linarith
  · have h0 : fmodR (0 : ℝ) 1 = 0 := by
      rw [fmodR, truncR]
      norm_num
    have h1 : fmodR (1 : ℝ) 1 = 0 := by
      rw [fmodR, truncR]
      norm_num
    unfold sawtooth_wave
    rw [h0, h1]

/-- Witness for `sawtooth_c5` at `x = 3/2`. -/
theorem sawtooth_c5_witness :
    0 ≤ (3/2 : ℝ) ∧ sawtooth_wave ((3/2 : ℝ) + 1) = sawtooth_wave (3/2 : ℝ) ∧
    (-1 ≤ sawtooth_wave (3/2 : ℝ) ∧ sawtooth_wave (3/2 : ℝ) < 1) := by
  have h : (0 : ℝ) ≤ 3/2 := by norm_num
  exact ⟨h, sawtooth_c5.1 (3/2) h, sawtooth_c5.2.1 (3/2) h⟩

/-- The gap to the target contracts by a fixed factor under a linear
smoothing step. -/
theorem smoothIter_gap (f : ℝ → ℝ → ℝ) (c : ℝ)
    (hf : ∀ w t, t - f w t = c * (t - w)) (target v : ℝ) :
    ∀ n : ℕ, target - smoothIter f target v n = c ^ n * (target - v) := by
  intro n
  induction n with
  | zero => simp [smoothIter]
  | succ n ih =>
      rw [smoothIter, hf, ih, pow_succ]
      ring

/-- Claim C6: for non-negative current value and target, iterating
`v = v*0.999 + target*0.001` (and the shape-side `v = v*0.95 + target*0.05`)
never increases the distance to the target and never flips the sign of
`target - v`. -/
theorem smoothing_c6 (v target : ℝ) (hv : 0 ≤ v) (ht : 0 ≤ target) (n : ℕ) :
    (|smoothIter blend_audio target v (n + 1) - target|
        ≤ |smoothIter blend_audio target v n - target| ∧
      (0 ≤ target - smoothIter blend_audio target v n ↔ 0 ≤ target - v)) ∧
    (|smoothIter blend_shape target v (n + 1) - target|
        ≤ |smoothIter blend_shape target v n - target| ∧
      (0 ≤ target - smoothIter blend_shape target v n ↔ 0 ≤ target - v)) := by
  have key : ∀ (f : ℝ → ℝ → ℝ) (c : ℝ), 0 < c → c ≤ 1 →
      (∀ w t, t - f w t = c * (t - w)) →
      (|smoothIter f target v (n + 1) - target| ≤ |smoothIter f target v n - target| ∧
        (0 ≤ target - smoothIter f target v n ↔ 0 ≤ target - v)) := by
    intro f c hc0 hc1 hf
    have habs : ∀ m : ℕ, |smoothIter f target v m - target| = c ^ m * |target - v| := by
      intro m
      rw [abs_sub_comm, smoothIter_gap f c hf target v m, abs_mul,
        abs_of_pos (pow_pos hc0 m)]
    constructor
    · rw [habs, habs]
      exact mul_le_mul_of_nonneg_right
        (pow_le_pow_of_le_one (le_of_lt hc0) hc1 (Nat.le_succ n)) (abs_nonneg _)
    · rw [smoothIter_gap f c hf target v n]
      exact mul_nonneg_iff_of_pos_left (pow_pos hc0 n)
  constructor
  · exact key blend_audio 0.999 (by norm_num) (by norm_num)
      (by intro w t; unfold blend_audio; ring)
  · exact key blend_shape 0.95 (by norm_num) (by norm_num)
      (by intro w t; unfold blend_shape; ring)

/-- Witness for `smoothing_c6` at `v = 2`, `target = 0`, `n = 5`. -/
theorem smoothing_c6_witness :
    0 ≤ (2 : ℝ) ∧ 0 ≤ (0 : ℝ) ∧
    ((|smoothIter blend_audio 0 2 (5 + 1) - 0| ≤ |smoothIter blend_audio 0 2 5 - 0| ∧
        (0 ≤ 0 - smoothIter blend_audio 0 2 5 ↔ 0 ≤ (0 : ℝ) - 2)) ∧
      (|smoothIter blend_shape 0 2 (5 + 1) - 0| ≤ |smoothIter blend_shape 0 2 5 - 0| ∧
        (0 ≤ 0 - smoothIter blend_shape 0 2 5 ↔ 0 ≤ (0 : ℝ) - 2))) :=
  ⟨by norm_num, by norm_num, smoothing_c6 2 0 (by norm_num) (by norm_num) 5⟩

end LD35

namespace LD35

/-- Claim C2: draining a `Beep` command retargets slot 3's `phase_inc` and
`volume` and zeroes the `phase` field of the TARGET params only; the live
`channels[3].phase` — the phase the per-sample synthesis loop reads — is
left untouched, so the claimed zero-crossing reset does not happen. -/
theorem beep_command_keeps_live_phase (s : MixerCallback) (f : ℝ) :
    (mixDrain s [MixerChannel.Beep f]).channels = s.channels ∧
    (mixDrain s [MixerChannel.Beep f]).channel_targets 3
      = { phase_inc := f / s.freq, phase := 0, volume := 8 } := by
  constructor
  · rfl
  · simp [mixDrain, applyCommand, Function.update]

/-- Claim C10: `Shape::reset` copies position, channel targets and
`set_channels` from the source shape, clears `is_selected`, keeps the live
channels (advancing them one 0.95/0.05 step toward the new targets via the
internal `update(0,0)`) and keeps the vertex-buffer length. -/
theorem shape_reset_c10 (s t : Shape) :
    (s.reset t).position = t.position ∧
    (s.reset t).channel_targets = t.channel_targets ∧
    (s.reset t).set_channels = t.set_channels ∧
    (s.reset t).is_selected = false ∧
    (∀ i : Fin 3,
      ((s.reset t).channels i).phase_inc
          = (s.channels i).phase_inc * 0.95 + (t.channel_targets i).phase_inc * 0.05 ∧
        ((s.reset t).channels i).volume
          = (s.channels i).volume * 0.95 + (t.channel_targets i).volume * 0.05 ∧
        ((s.reset t).channels i).phase = (s.channels i).phase) ∧
    (s.reset t).points.length = s.points.length := by
  unfold Shape.reset Shape.update
  refine ⟨rfl, rfl, rfl, rfl, fun i => ⟨rfl, rfl, rfl⟩, ?_⟩
  rw [List.length_map, List.length_range]

/-- Claim C8, counterexample: `Shape::new` does not reject a zero vertex
count; the shape is constructed, with an empty vertex buffer, so the
divisor used by `update`'s vertex recomputation is zero for it. -/
theorem shape_new_zero_cex :
    (Shape.new cpos 0 cchans).points.length = 0 ∧
    ((Shape.new cpos 0 cchans).points.length : ℝ) = 0 := by
  constructor
  · unfold Shape.new Shape.set_target Shape.update
    rw [List.length_map, List.length_range, List.length_replicate]
  · unfold Shape.new Shape.set_target Shape.update
    rw [List.length_map, List.length_range, List.length_replicate]
    norm_num

/-- `Shape::update` never changes the vertex-buffer length. -/
theorem shape_update_length (s : Shape) (a b : ℝ) :
    (s.update a b).points.length = s.points.length := by
  unfold Shape.update
  rw [List.length_map, List.length_range]

/-- Claim C8, amended: construction with `vertex_count = 0` is accepted (see
the counterexample), but every shape constructed with a positive vertex
count keeps that length through `update`, so the division by the vertex
count during vertex recomputation is never a division by zero. -/
theorem shape_new_c8 (p : Vec2d) (ch : Fin 3 → MixerChannel) (n : ℕ) (h : 0 < n)
    (a b : ℝ) :
    (Shape.new p n ch).points.length = n ∧
    ((Shape.new p n ch).points.length : ℝ) ≠ 0 ∧
    ((Shape.new p n ch).update a b).points.length = n := by
  have hlen : (Shape.new p n ch).points.length = n := by
    unfold Shape.new Shape.set_target Shape.update
    rw [List.length_map, List.length_range, List.length_replicate]
  refine ⟨hlen, ?_, ?_⟩
  · rw [hlen]
    exact_mod_cast Nat.pos_iff_ne_zero.mp h
  · rw [shape_update_length, hlen]

/-- Witness for `shape_new_c8` with four vertices. -/
theorem shape_new_c8_witness :
    0 < 4 ∧
    ((Shape.new cpos 4 cchans).points.length = 4 ∧
      ((Shape.new cpos 4 cchans).points.length : ℝ) ≠ 0 ∧
      ((Shape.new cpos 4 cchans).update 0 0).points.length = 4) :=
  ⟨by decide, shape_new_c8 cpos cchans 4 (by decide) 0 0⟩

end LD35

namespace LD35

/-- The accumulation loop over the three shape channels is the sum of the
three slot samples. -/
theorem fold3_sum (g : Fin 3 → ℝ) :
    (List.finRange 3).foldl (fun acc i => acc + g i) 0 = ∑ i : Fin 3, g i := by
  have h : List.finRange 3 = [0, 1, 2] := rfl
  rw [h, Fin.sum_univ_three]
  show 0 + g 0 + g 1 + g 2 = g 0 + g 1 + g 2
  ring

/-- `Vec2d.add` is commutative. -/
theorem Vec2d.add_comm (a b : Vec2d) : Vec2d.add a b = Vec2d.add b a := by
  ext
  · show a.x + b.x = b.x + a.x
    ring
  · show a.y + b.y = b.y + a.y
    ring

/-- `Shape::sample_channels` in closed form: a unit vector at the drifted
angle, scaled by the radius obtained from the channel samples. -/
theorem sample_channels_eq (s : Shape) (x t : ℝ) :
    s.sample_channels x t
      = Vec2d.scale (unit_vector ((x + t * 0.125) * Real.pi * 2))
          (specRadius s.channels x) := by
  unfold Shape.sample_channels unit_vector specRadius
  rw [fold3_sum]

end LD35

namespace LD35

/-- Closed form of the vertex drawn for index `i` after `update`. -/
theorem shape_update_vertex (s : Shape) (tick time : ℝ) (i : ℕ)
    (hlen : i < s.points.length) :
    (s.update tick time).vertexAt i
      = some (Vec2d.add s.position
          (Vec2d.scale
            (unit_vector (2 * Real.pi
              * ((i : ℝ) / (s.points.length : ℝ) + time * 0.125)))
            (specRadius ((s.update tick time).channels)
              ((i : ℝ) / (s.points.length : ℝ))))) := by
  have hx : (i : ℝ) * (1 / (s.points.length : ℝ))
      = (i : ℝ) / (s.points.length : ℝ) := mul_one_div _ _
  have harg : ((i : ℝ) / (s.points.length : ℝ) + time * 0.125) * Real.pi * 2
      = 2 * Real.pi * ((i : ℝ) / (s.points.length : ℝ) + time * 0.125) := by
    ring
  unfold Shape.vertexAt
  simp only [Shape.update]
  simp only [List.get?_map, List.get?_range hlen, Option.map_some']
  rw [sample_channels_eq, hx, harg, Vec2d.add_comm]

/-- Claim C3, amended: after `update(tick, time)`, the vertex drawn for
index `idx` (with `u = idx / vertex_count`) sits at
`position + unit_vector(2π(u + time·0.125)) * radius`, where the radius sums
the volume-weighted waveform outputs of the shape's own (freshly smoothed)
channels sampled at `u * phase_inc`, mapped through `SIZE * (sum/3 + 1)`. -/
theorem shape_vertex_c3 (s : Shape) (tick time : ℝ) (idx : Fin s.points.length) :
    (s.update tick time).vertexAt (idx : ℕ)
      = some (Vec2d.add s.position
          (Vec2d.scale
            (unit_vector (2 * Real.pi
              * (((idx : ℕ) : ℝ) / (s.points.length : ℝ) + time * 0.125)))
            (specRadius ((s.update tick time).channels)
              (((idx : ℕ) : ℝ) / (s.points.length : ℝ))))) :=
  shape_update_vertex s tick time (idx : ℕ) idx.isLt

end LD35

namespace LD35

/-- The smoothing step inside `update` is the identity on `cshape3`, whose
targets equal its live channels. -/
theorem cshape3_channels : (cshape3.update 0 0).channels = cch3 := by
  funext i
  show { phase_inc := (cch3 i).phase_inc * 0.95 + (cch3 i).phase_inc * 0.05,
         phase := (cch3 i).phase,
         volume := (cch3 i).volume * 0.95 + (cch3 i).volume * 0.05 : MixerChannelParams }
      = cch3 i
  ext
  · show (cch3 i).phase_inc * 0.95 + (cch3 i).phase_inc * 0.05 = (cch3 i).phase_inc
    ring
  · rfl
  · show (cch3 i).volume * 0.95 + (cch3 i).volume * 0.05 = (cch3 i).volume
    ring

/-- `square_wave (3/4) = -1` (`m = 3/2 > 1`). -/
theorem square_wave_three_quarters : square_wave ((3 : ℝ)/4) = -1 := by
  have h : fmodR (((3 : ℝ)/4) * 2) 2 = 3/2 := by
    rw [fmodR, truncR]
    norm_num
  unfold square_wave
  rw [h]
  norm_num

/-- `square_wave (1/4) = 1` (`m = 1/2 ≤ 1`). -/
theorem square_wave_one_quarter : square_wave ((1 : ℝ)/4) = 1 := by
  have h : fmodR (((1 : ℝ)/4) * 2) 2 = 1/2 := by
    rw [fmodR, truncR]
    norm_num
  unfold square_wave
  rw [h]
  norm_num

/-- The code-side radius of `cshape3` at `u = 1/4`. -/
theorem cshape3_specRadius : specRadius cch3 ((1 : ℝ)/4) = 64 := by
  have t0 : shapeChanSample cch3 0 ((1 : ℝ)/4) = sine_wave ((1 : ℝ)/4 * 0) * 0 := rfl
  have t1 : shapeChanSample cch3 1 ((1 : ℝ)/4) = square_wave ((1 : ℝ)/4 * 3) * 1 := rfl
  have t2 : shapeChanSample cch3 2 ((1 : ℝ)/4) = sawtooth_wave ((1 : ℝ)/4 * 0) * 0 := rfl
  have harg : (1 : ℝ)/4 * (3 : ℝ) = 3/4 := by norm_num
  unfold specRadius SIZE
  rw [Fin.sum_univ_three, t0, t1, t2, harg, square_wave_three_quarters]
  ring

/-- The claim-side radius of `cshape3` at `u = 1/4`. -/
theorem cshape3_claimRadius : claimRadius cch3 ((1 : ℝ)/4) = 128 := by
  have t0 : claimChanSample cch3 0 ((1 : ℝ)/4) = sine_wave ((1 : ℝ)/4) * 0 := rfl
  have t1 : claimChanSample cch3 1 ((1 : ℝ)/4) = square_wave ((1 : ℝ)/4) * 1 := rfl
  have t2 : claimChanSample cch3 2 ((1 : ℝ)/4) = sawtooth_wave ((1 : ℝ)/4) * 0 := rfl
  unfold claimRadius SIZE
  rw [Fin.sum_univ_three, t0, t1, t2, square_wave_one_quarter]
  ring

/-- Claim C3, counterexample: for `cshape3` (square slot live with
`phase_inc = 3`, `volume = 1`) the vertex at `idx = 1` of 4 lands at
`(0, 64)`, while sampling the waveforms at phase `u = 1/4` itself, as the
claim states, would place it at `(0, 128)`. -/
theorem shape_vertex_claim_cex :
    (cshape3.update 0 0).vertexAt 1 = some ⟨0, 64⟩ ∧
    (cshape3.update 0 0).vertexAt 1
      ≠ some (Vec2d.add cshape3.position
          (Vec2d.scale (unit_vector (2 * Real.pi * ((1 : ℝ)/4 + 0 * 0.125)))
            (claimRadius ((cshape3.update 0 0).channels) ((1 : ℝ)/4)))) := by
  have hlen : cshape3.points.length = 4 := rfl
  have hcast : ((1 : ℕ) : ℝ) / ((cshape3.points.length : ℕ) : ℝ) = (1 : ℝ)/4 := by
    rw [hlen]
    norm_num
  have hv : (cshape3.update 0 0).vertexAt 1 = some ⟨0, 64⟩ := by
    rw [shape_update_vertex cshape3 0 0 1 (by rw [hlen]; norm_num)]
    rw [hcast, cshape3_channels, cshape3_specRadius]
    have harg : 2 * Real.pi * ((1 : ℝ)/4 + 0 * 0.125) = Real.pi / 2 := by ring
    rw [harg]
    unfold unit_vector Vec2d.scale Vec2d.add cshape3
    rw [Real.cos_pi_div_two, Real.sin_pi_div_two]
    norm_num
  refine ⟨hv, ?_⟩
  rw [hv, cshape3_channels, cshape3_claimRadius]
  have harg : 2 * Real.pi * ((1 : ℝ)/4 + 0 * 0.125) = Real.pi / 2 := by ring
  rw [harg]
  unfold unit_vector Vec2d.scale Vec2d.add cshape3
  rw [Real.cos_pi_div_two, Real.sin_pi_div_two]
  norm_num

end LD35

namespace LD35

/-- While the accumulated morph stays at or below 1, an update advances
morph by `tick` without flipping the function slots. -/
theorem funcshape_update_progress (s : FuncShape) (g : ℚ → ℚ → ℚ × ℚ)
    (hn : s.next = some g) (tick tm : ℚ) (h : ¬ s.morph + tick > 1) :
    (s.update tick tm).next = some g ∧ (s.update tick tm).current = s.current ∧
    (s.update tick tm).morph = s.morph + tick ∧
    (s.update tick tm).points.length = s.points.length := by
  unfold FuncShape.update
  rw [hn]
  simp [h]

/-- Once the accumulated morph exceeds 1, an update flips: the pending
function becomes current, morph resets, the stale slot is cleared and the
vertices evaluate only the new current function. -/
theorem funcshape_update_flip (s : FuncShape) (g : ℚ → ℚ → ℚ × ℚ)
    (hn : s.next = some g) (tick tm : ℚ) (h : s.morph + tick > 1) :
    (s.update tick tm).next = none ∧ (s.update tick tm).current = g ∧
    (s.update tick tm).morph = 0 ∧
    (s.update tick tm).points
      = (List.range s.points.length).map
          (fun (idx : ℕ) => g ((idx : ℚ) / (s.points.length : ℚ)) tm) := by
  unfold FuncShape.update
  rw [hn]
  simp [h]

/-- Claim C9, amended (spec-modelled): from a settled state, `set_next`
followed by four `update`s with `tick = 0.25` drives morph through
1/4, 1/2, 3/4 to exactly 1 with no current/next flip; the flip happens on
the fifth update (morph then exceeds 1), which installs the pending
function as current, resets morph to 0, clears the stale slot, and computes
the vertices by evaluating only the new current function. -/
theorem funcshape_c9 (s : FuncShape) (g : ℚ → ℚ → ℚ × ℚ)
    (hnext : s.next = none) (hmorph : s.morph = 0) (tm : ℚ) :
    (∀ k : Fin 4,
      ((morphStep tm)^[(k : ℕ) + 1] (s.set_next g)).next = some g ∧
      ((morphStep tm)^[(k : ℕ) + 1] (s.set_next g)).current = s.current ∧
      ((morphStep tm)^[(k : ℕ) + 1] (s.set_next g)).morph = ((k : ℕ) + 1 : ℚ) / 4) ∧
    ((morphStep tm)^[5] (s.set_next g)).next = none ∧
    ((morphStep tm)^[5] (s.set_next g)).current = g ∧
    ((morphStep tm)^[5] (s.set_next g)).morph = 0 ∧
    ((morphStep tm)^[5] (s.set_next g)).points
      = (List.range s.points.length).map
          (fun (idx : ℕ) => g ((idx : ℚ) / (s.points.length : ℚ)) tm) := by
  have h0n : (s.set_next g).next = some g := rfl
  have h0m : (s.set_next g).morph = 0 := hmorph
  have h0c : (s.set_next g).current = s.current := rfl
  have h0l : (s.set_next g).points.length = s.points.length := rfl
  have s1 := funcshape_update_progress (s.set_next g) g h0n (1/4) tm
    (by rw [h0m]; norm_num)
  rw [h0m] at s1
  have s2 := funcshape_update_progress _ g s1.1 (1/4) tm
    (by rw [s1.2.2.1]; norm_num)
  rw [s1.2.2.1] at s2
  have s3 := funcshape_update_progress _ g s2.1 (1/4) tm
    (by rw [s2.2.2.1]; norm_num)
  rw [s2.2.2.1] at s3
  have s4 := funcshape_update_progress _ g s3.1 (1/4) tm
    (by rw [s3.2.2.1]; norm_num)
  rw [s3.2.2.1] at s4
  have s5 := funcshape_update_flip _ g s4.1 (1/4) tm
    (by rw [s4.2.2.1]; norm_num)
  have e1 : (morphStep tm)^[1] (s.set_next g) = (s.set_next g).update (1/4) tm := rfl
  have e2 : (morphStep tm)^[2] (s.set_next g)
      = ((morphStep tm)^[1] (s.set_next g)).update (1/4) tm := rfl
  have e3 : (morphStep tm)^[3] (s.set_next g)
      = ((morphStep tm)^[2] (s.set_next g)).update (1/4) tm := rfl
  have e4 : (morphStep tm)^[4] (s.set_next g)
      = ((morphStep tm)^[3] (s.set_next g)).update (1/4) tm := rfl
  have e5 : (morphStep tm)^[5] (s.set_next g)
      = ((morphStep tm)^[4] (s.set_next g)).update (1/4) tm := rfl
  have hl4 : (((((s.set_next g).update (1/4) tm).update (1/4) tm).update (1/4) tm).update
        (1/4) tm).points.length = s.points.length := by
    rw [s4.2.2.2, s3.2.2.2, s2.2.2.2, s1.2.2.2, h0l]
  refine ⟨?_, ?_, ?_, ?_, ?_⟩
  · intro k
    fin_cases k
    · exact ⟨by rw [e1]; exact s1.1, by rw [e1]; exact s1.2.1, by rw [e1, s1.2.2.1]; norm_num⟩
    · refine ⟨by rw [e2, e1]; exact s2.1, ?_, by rw [e2, e1, s2.2.2.1]; norm_num⟩
      rw [e2, e1, s2.2.1, s1.2.1]
      exact h0c
    · refine ⟨by rw [e3, e2, e1]; exact s3.1, ?_, by rw [e3, e2, e1, s3.2.2.1]; norm_num⟩
      rw [e3, e2, e1, s3.2.1, s2.2.1, s1.2.1]
      exact h0c
    · refine ⟨by rw [e4, e3, e2, e1]; exact s4.1, ?_, by rw [e4, e3, e2, e1, s4.2.2.1]; norm_num⟩
      rw [e4, e3, e2, e1, s4.2.1, s3.2.1, s2.2.1, s1.2.1]
      exact h0c
  · rw [e5]
    exact s5.1
  · rw [e5]
    exact s5.2.1
  · rw [e5]
    exact s5.2.2.1
  · rw [e5, e4, e3, e2, e1, s5.2.2.2, hl4]

end LD35

namespace LD35

/-- Witness for `funcshape_c9`: the concrete settled shape `cfshape`,
morphing toward `cfun1`. -/
theorem funcshape_c9_witness :
    cfshape.next = none ∧ cfshape.morph = 0 ∧
    ((∀ k : Fin 4,
      ((morphStep 0)^[(k : ℕ) + 1] (cfshape.set_next cfun1)).next = some cfun1 ∧
      ((morphStep 0)^[(k : ℕ) + 1] (cfshape.set_next cfun1)).current = cfshape.current ∧
      ((morphStep 0)^[(k : ℕ) + 1] (cfshape.set_next cfun1)).morph = ((k : ℕ) + 1 : ℚ) / 4) ∧
    ((morphStep 0)^[5] (cfshape.set_next cfun1)).next = none ∧
    ((morphStep 0)^[5] (cfshape.set_next cfun1)).current = cfun1 ∧
    ((morphStep 0)^[5] (cfshape.set_next cfun1)).morph = 0 ∧
    ((morphStep 0)^[5] (cfshape.set_next cfun1)).points
      = (List.range cfshape.points.length).map
          (fun (idx : ℕ) => cfun1 ((idx : ℚ) / (cfshape.points.length : ℚ)) 0)) :=
  ⟨rfl, rfl, funcshape_c9 cfshape cfun1 rfl rfl 0⟩

/-- Claim C9, counterexample: with `tick = 0.25`, four updates after
`set_next` bring morph to exactly 1, which does not exceed 1, so no
current/next flip has happened yet: the next slot still holds the pending
function and the current slot still evaluates like the original function,
which differs from the pending one. -/
theorem funcshape_claim_cex :
    (((((cfshape.set_next cfun1).update (1/4) 0).update (1/4) 0).update (1/4) 0).update
        (1/4) 0).next = some cfun1 ∧
    (((((cfshape.set_next cfun1).update (1/4) 0).update (1/4) 0).update (1/4) 0).update
        (1/4) 0).morph = 1 ∧
    ((((((cfshape.set_next cfun1).update (1/4) 0).update (1/4) 0).update (1/4) 0).update
        (1/4) 0).current) 0 0 = (0, 0) ∧
    cfun1 0 0 = (1, 1) := by
  have h0n : (cfshape.set_next cfun1).next = some cfun1 := rfl
  have h0m : (cfshape.set_next cfun1).morph = 0 := rfl
  have s1 := funcshape_update_progress (cfshape.set_next cfun1) cfun1 h0n (1/4) 0
    (by rw [h0m]; norm_num)
  rw [h0m] at s1
  have s2 := funcshape_update_progress _ cfun1 s1.1 (1/4) 0 (by rw [s1.2.2.1]; norm_num)
  rw [s1.2.2.1] at s2
  have s3 := funcshape_update_progress _ cfun1 s2.1 (1/4) 0 (by rw [s2.2.2.1]; norm_num)
  rw [s2.2.2.1] at s3
  have s4 := funcshape_update_progress _ cfun1 s3.1 (1/4) 0 (by rw [s3.2.2.1]; norm_num)
  rw [s3.2.2.1] at s4
  refine ⟨s4.1, by rw [s4.2.2.1]; norm_num, ?_, by norm_num [cfun1]⟩
  rw [s4.2.1, s3.2.1, s2.2.1, s1.2.1]
  rfl

end LD35

namespace LD35

theorem finRange4 : List.finRange 4 = [0, 1, 2, 3] := rfl

/-- One pass of the channel loop in closed form: the slot's phase advances
modulo 1, `volume * sample` joins the accumulator, and `phase_inc` and
`volume` are each smoothed exactly once toward the (possibly decayed)
targets; nothing else changes. -/
theorem channelStep_eq (sa : MixerCallback × ℝ) (idx : Fin 4) :
    channelStep sa idx =
      ({ freq := sa.1.freq,
         channels := Function.update sa.1.channels idx
           { phase_inc := (sa.1.channels idx).phase_inc * 0.999
               + (mixTgt sa.1 idx).phase_inc * 0.001,
             phase := fmodR ((sa.1.channels idx).phase + (sa.1.channels idx).phase_inc) 1,
             volume := (sa.1.channels idx).volume * 0.999
               + (mixTgt sa.1 idx).volume * 0.001 },
         channel_targets := mixTgts sa.1 idx,
         time := sa.1.time },
       sa.2 + (sa.1.channels idx).volume
         * slotWave sa.1.time idx
             (fmodR ((sa.1.channels idx).phase + (sa.1.channels idx).phase_inc) 1)) := by
  fin_cases idx <;>
    simp only [channelStep, mixSample, mixTgts, mixTgt, slotWave, Function.update_idem] <;>
    norm_num

end LD35

namespace LD35

theorem mixTgts_three_at (s : MixerCallback) (idx : Fin 4) :
    mixTgts s 3 idx = mixTgt s idx := by
  have v3 : ((3:Fin 4)).val = 3 := rfl
  fin_cases idx <;>
    simp [mixTgts, mixTgt, Function.update_apply, v3, show ¬((0:Fin 4) = 3) from by decide,
      show ¬((1:Fin 4) = 3) from by decide, show ¬((2:Fin 4) = 3) from by decide]

theorem mixFrame_spec (s : MixerCallback) :
    (mixFrame s).2 = specFrameOut s ∧
    (mixFrame s).1.channel_targets = mixTgts s 3 ∧
    ∀ idx : Fin 4,
      (mixFrame s).1.channels idx
        = { phase_inc := (s.channels idx).phase_inc * 0.999 + (mixTgt s idx).phase_inc * 0.001,
            phase := fmodR ((s.channels idx).phase + (s.channels idx).phase_inc) 1,
            volume := (s.channels idx).volume * 0.999 + (mixTgt s idx).volume * 0.001 } := by
  have n10 : ¬((1:Fin 4) = 0) := by decide
  have n20 : ¬((2:Fin 4) = 0) := by decide
  have n21 : ¬((2:Fin 4) = 1) := by decide
  have n30 : ¬((3:Fin 4) = 0) := by decide
  have n31 : ¬((3:Fin 4) = 1) := by decide
  have n32 : ¬((3:Fin 4) = 2) := by decide
  have n03 : ¬((0:Fin 4) = 3) := by decide
  have n13 : ¬((1:Fin 4) = 3) := by decide
  have n23 : ¬((2:Fin 4) = 3) := by decide
  have n01 : ¬((0:Fin 4) = 1) := by decide
  have n02 : ¬((0:Fin 4) = 2) := by decide
  have n12 : ¬((1:Fin 4) = 2) := by decide
  have v3 : ((3:Fin 4)).val = 3 := rfl
  refine ⟨?_, ?_, ?_⟩
  · unfold mixFrame
    rw [finRange4]
    simp only [List.foldl_cons, List.foldl_nil, channelStep_eq]
    rw [specFrameOut, Fin.sum_univ_four]
    simp only [mixTgts, mixTgt, Function.update_apply]
    simp only [n10, n20, n21, n30, n31, n32, if_false, ite_false]
    norm_num
  · unfold mixFrame
    rw [finRange4]
    simp only [List.foldl_cons, List.foldl_nil, channelStep_eq]
    simp only [mixTgts, mixTgt, Function.update_apply, n10, n20, n21, n30, n31, n32,
      if_false, ite_false]
    norm_num
  · intro idx
    unfold mixFrame
    rw [finRange4]
    simp only [List.foldl_cons, List.foldl_nil, channelStep_eq]
    fin_cases idx <;>
      simp [mixTgts, mixTgt, Function.update_apply, v3, n10, n20, n21, n30, n31, n32,
        n03, n13, n23, n01, n02, n12]

end LD35

namespace LD35

/-- The final state of `n` frames is the `n`-fold frame transition. -/
theorem mixFrames_fst (n : ℕ) : ∀ s : MixerCallback, (mixFrames s n).1 = mixNext^[n] s := by
  induction n with
  | zero => intro s; rfl
  | succ n ih =>
      intro s
      show (mixFrames (mixFrame s).1 n).1 = mixNext^[n + 1] s
      rw [ih, Function.iterate_succ_apply, mixNext]

/-- The `i`-th sample written by `n` frames is the output of the frame run
from the state reached after `i` frame transitions. -/
theorem mixFrames_get (n : ℕ) :
    ∀ (s : MixerCallback) (i : ℕ), i < n →
      (mixFrames s n).2.get? i = some ((mixFrame (mixNext^[i] s)).2) := by
  induction n with
  | zero => intro s i h; exact absurd h (Nat.not_lt_zero i)
  | succ n ih =>
      intro s i h
      match i with
      | 0 => rfl
      | j + 1 =>
          show (mixFrames (mixFrame s).1 n).2.get? j = _
          rw [ih (mixFrame s).1 j (Nat.lt_of_succ_lt_succ h),
            Function.iterate_succ_apply, mixNext]

/-- Claim C1: on every callback invocation, each written frame equals the
accumulator `Σ volume·sample` (at the advanced phases) divided by the
channel count 4, and across that frame each slot's phase advanced by
`(phase + phase_inc) mod 1` and its `phase_inc` and `volume` were smoothed
exactly once, 0.1% toward the slot's current target. -/
theorem mixer_callback_c1 (s : MixerCallback) (cmds : List MixerChannel) (n : ℕ)
    (i : Fin n) :
    (mixCallback s cmds n).2.get? (i : ℕ) = some (specFrameOut (mixAfter s cmds i)) ∧
    ∀ idx : Fin 4,
      ((mixAfter s cmds ((i : ℕ) + 1)).channels idx).phase
          = fmodR (((mixAfter s cmds i).channels idx).phase
              + ((mixAfter s cmds i).channels idx).phase_inc) 1 ∧
        ((mixAfter s cmds ((i : ℕ) + 1)).channels idx).phase_inc
          = ((mixAfter s cmds i).channels idx).phase_inc * 0.999
            + ((mixAfter s cmds ((i : ℕ) + 1)).channel_targets idx).phase_inc * 0.001 ∧
        ((mixAfter s cmds ((i : ℕ) + 1)).channels idx).volume
          = ((mixAfter s cmds i).channels idx).volume * 0.999
            + ((mixAfter s cmds ((i : ℕ) + 1)).channel_targets idx).volume * 0.001 := by
  have hstep : mixAfter s cmds ((i : ℕ) + 1) = (mixFrame (mixAfter s cmds i)).1 := by
    rw [mixAfter, mixAfter, Function.iterate_succ_apply', mixNext]
  constructor
  · show (mixFrames (mixDrain s cmds) n).2.get? (i : ℕ) = _
    rw [mixFrames_get n (mixDrain s cmds) (i : ℕ) i.isLt]
    simp only [mixAfter]
    rw [(mixFrame_spec (mixNext^[(i : ℕ)] (mixDrain s cmds))).1]
  · intro idx
    have hch := (mixFrame_spec (mixAfter s cmds i)).2.2 idx
    have htg := (mixFrame_spec (mixAfter s cmds i)).2.1
    rw [hstep, hch, htg, mixTgts_three_at]
    exact ⟨rfl, rfl, rfl⟩

end LD35
